import Mathlib

/-!
# Verification of the validator-history record store

Shallow embedding of `src/programs/validator-history/src/state.rs`:
the fixed record (`ValidatorHistoryEntry`), the circular buffer
(`CircBuf`), and the update operations of `ValidatorHistory`.

Machine integers are modelled as `Nat`; truncating casts (`as u8`,
`as u32`) are modelled by explicit `% 2^w`.  A Rust function that can
panic is modelled with an `Option` result, `none` standing for the
panic.  Mutation of `&mut self` is modelled by explicit state passing:
each setter takes the store and returns the new store together with
the `Result<()>` value.
-/

namespace Stakenet

/-- Error type from `crate::errors::ValidatorHistoryError` (the errors
module is not under `src/`); the constructors are the four variants that
`state.rs` uses. -/
inductive ValidatorHistoryError where
  | EpochOutOfRange
  | InvalidEpochCredits
  | UnsupportedIpFormat
  | GossipDataTooOld
  deriving DecidableEq

/-- `Result<(), ValidatorHistoryError>`. -/
inductive UpdateResult where
  | ok
  | err (e : ValidatorHistoryError)
  deriving DecidableEq

/-- `ClientVersion { major: u8, minor: u8, patch: u16 }`. -/
structure ClientVersion where
  major : Nat
  minor : Nat
  patch : Nat
  deriving DecidableEq

/-- `ValidatorHistoryEntry` with its `Default` impl: every field is its
type's maximum value ("unset" sentinel).  The two padding fields of the
Rust struct are byte-layout filler that no operation ever reads and are
omitted. -/
structure ValidatorHistoryEntry where
  activated_stake_lamports : Nat := 18446744073709551615
  epoch : Nat := 65535
  mev_commission : Nat := 65535
  epoch_credits : Nat := 4294967295
  commission : Nat := 255
  client_type : Nat := 255
  version : ClientVersion := { major := 255, minor := 255, patch := 65535 }
  ip : List Nat := [255, 255, 255, 255]
  is_superminority : Nat := 255
  rank : Nat := 4294967295
  vote_account_last_update_slot : Nat := 18446744073709551615
  deriving DecidableEq

/-- `ValidatorHistoryEntry::default()`. -/
def ValidatorHistoryEntry.default : ValidatorHistoryEntry := {}

/-- `const MAX_ITEMS: usize = 512`. -/
def MAX_ITEMS : Nat := 512

/-- `CircBuf { idx: u64, is_empty: u8, arr: [ValidatorHistoryEntry; 512] }`
(padding omitted).  The array is a list whose length is `MAX_ITEMS` in
every state the program can construct. -/
structure CircBuf where
  idx : Nat
  is_empty : Nat
  arr : List ValidatorHistoryEntry
  deriving DecidableEq

/-- `CircBuf::default()`: `idx = 0`, `is_empty = 1`, all-sentinel array. -/
def CircBuf.default : CircBuf :=
  { idx := 0, is_empty := 1, arr := List.replicate MAX_ITEMS ValidatorHistoryEntry.default }

/-- `CircBuf::push`: advance the cursor modulo the array length and
overwrite that slot; mark non-empty. -/
def CircBuf.push (buf : CircBuf) (item : ValidatorHistoryEntry) : CircBuf :=
  let i := (buf.idx + 1) % buf.arr.length
  { idx := i, is_empty := 0, arr := buf.arr.set i item }

/-- `CircBuf::last`: the entry at the cursor, or `none` when empty. -/
def CircBuf.last (buf : CircBuf) : Option ValidatorHistoryEntry :=
  if buf.is_empty = 1 then none else buf.arr[buf.idx]?

/-- Writing through `CircBuf::last_mut`: replace the entry at the cursor. -/
def CircBuf.setLast (buf : CircBuf) (e : ValidatorHistoryEntry) : CircBuf :=
  { buf with arr := buf.arr.set buf.idx e }

/-- The shared "update-in-place-or-append" pattern of the setters: if the
buffer is non-empty and the last entry's epoch equals the target epoch,
mutate that entry in place with `f`; otherwise push `fresh`. -/
def CircBuf.upsertLast (buf : CircBuf) (epoch : Nat)
    (f : ValidatorHistoryEntry → ValidatorHistoryEntry)
    (fresh : ValidatorHistoryEntry) : CircBuf :=
  match buf.last with
  | some entry => if entry.epoch = epoch then buf.setLast (f entry) else buf.push fresh
  | none => buf.push fresh

/-- `IpAddr` (std): a V4 address carries its four octets. -/
inductive IpAddr where
  | v4 (octets : List Nat)
  | v6 (segments : List Nat)
  deriving DecidableEq

/-- Modelled from the spec: `crds_value::ContactInfo`'s version record is
not under `src/`; `state.rs` reads `client`, `major`, `minor` (cast
`as u8`) and `patch` (assigned to a `u16` field uncast). -/
structure ContactInfoVersion where
  client : Nat
  major : Nat
  minor : Nat
  patch : Nat
  deriving DecidableEq

/-- Modelled from the spec: `crds_value::ContactInfo` is not under
`src/`; `state.rs` reads `addrs[0]` (a list of addresses) and
`version`. -/
structure ContactInfo where
  addrs : List IpAddr
  version : ContactInfoVersion
  deriving DecidableEq

/-- Modelled from the spec: `crds_value::LegacyContactInfo` is not under
`src/`; `state.rs` reads the IP of its `gossip` socket address. -/
structure LegacyContactInfo where
  gossip_ip : IpAddr
  deriving DecidableEq

/-- Version triple read by the version setters; `major`/`minor` are cast
`as u8`, `patch` is a `u16` assigned uncast. -/
structure SemVer where
  major : Nat
  minor : Nat
  patch : Nat
  deriving DecidableEq

/-- Modelled from the spec: `crds_value::Version2` is not under `src/`;
`state.rs` reads `version.major/minor/patch`. -/
structure Version2 where
  version : SemVer
  deriving DecidableEq

/-- Modelled from the spec: `crds_value::LegacyVersion` is not under
`src/`; `state.rs` reads `version.major/minor/patch`. -/
structure LegacyVersion where
  version : SemVer
  deriving DecidableEq

/-- Modelled from the spec: `utils::cast_epoch` is not under `src/`; it
casts the `u64` ledger epoch to the 16-bit epoch index (identity for all
epochs below 2^16, the only ones the claims use). -/
def cast_epoch (epoch : Nat) : Nat := epoch % 65536

/-- `ValidatorHistory` (identity fields `struct_version`, `vote_account`,
`index`, `bump`, never read or written by the setters, are omitted):
the two watermarks and the ring buffer. -/
structure ValidatorHistory where
  last_ip_timestamp : Nat
  last_version_timestamp : Nat
  history : CircBuf
  deriving DecidableEq

/-- A freshly initialized store: zero watermarks, default (empty,
all-sentinel) buffer. -/
def ValidatorHistory.fresh : ValidatorHistory :=
  { last_ip_timestamp := 0, last_version_timestamp := 0, history := CircBuf.default }

/-- `ValidatorHistory::set_mev_commission`. -/
def ValidatorHistory.set_mev_commission (s : ValidatorHistory) (epoch commission : Nat) :
    ValidatorHistory × UpdateResult :=
  ({ s with history := (s.history.upsertLast epoch
      (fun entry => { entry with mev_commission := commission })
      { epoch := epoch, mev_commission := commission }) }, .ok)

/-- The three-field stake update applied to one entry by
`ValidatorHistory::set_stake`. -/
def stakeFields (stake rank : Nat) (is_superminority : Bool)
    (entry : ValidatorHistoryEntry) : ValidatorHistoryEntry :=
  { entry with activated_stake_lamports := stake, rank := rank,
               is_superminority := if is_superminority then 1 else 0 }

/-- The linear scan of `set_stake`'s out-of-order branch: find the first
entry with the target epoch, apply `f` to it; `none` when no entry
matches. -/
def scanSetFirst (epoch : Nat) (f : ValidatorHistoryEntry → ValidatorHistoryEntry) :
    List ValidatorHistoryEntry → Option (List ValidatorHistoryEntry)
  | [] => none
  | x :: xs =>
    if x.epoch = epoch then some (f x :: xs)
    else (scanSetFirst epoch f xs).map (x :: ·)

/-- `ValidatorHistory::set_stake`. -/
def ValidatorHistory.set_stake (s : ValidatorHistory) (epoch stake rank : Nat)
    (is_superminority : Bool) : ValidatorHistory × UpdateResult :=
  match s.history.last with
  | some entry =>
    if entry.epoch = epoch then
      ({ s with history := s.history.setLast (stakeFields stake rank is_superminority entry) }, .ok)
    else if epoch < entry.epoch then
      -- Ordering::Greater: linear scan of the whole array
      match scanSetFirst epoch (stakeFields stake rank is_superminority) s.history.arr with
      | some arr => ({ s with history := { s.history with arr := arr } }, .ok)
      | none => (s, .err .EpochOutOfRange)
    else
      -- Ordering::Less: fall through to push
      ({ s with history := (s.history.push
          (stakeFields stake rank is_superminority { epoch := epoch })) }, .ok)
  | none =>
      ({ s with history := (s.history.push
          (stakeFields stake rank is_superminority { epoch := epoch })) }, .ok)

/-- Building the `HashMap<u16, u32>` of `set_epoch_credits`:
`(epoch, cur, prev) ↦ (cast_epoch epoch, (cur - prev) as u32)`, where
`cur.checked_sub(prev). ... .unwrap()` panics (`none`) on a negative
delta.  A later pair with the same key overwrites an earlier one. -/
def creditsMap (epoch_credits : List (Nat × Nat × Nat)) : Option (List (Nat × Nat)) :=
  epoch_credits.mapM (fun t =>
    if t.2.1 < t.2.2 then none
    else some (cast_epoch t.1, (t.2.1 - t.2.2) % 4294967296))

/-- `HashMap::get` on the association list built by `creditsMap`:
the value of the last pair with the given key. -/
def mapGet (pairs : List (Nat × Nat)) (k : Nat) : Option Nat :=
  (pairs.reverse.find? (fun p => p.1 == k)).map (fun p => p.2)

/-- The backward walk of `set_epoch_credits`: iteration `i` (fuel counts
the remaining iterations of `for i in 0..len`) visits position
`(idx + len - i) % len`; overwrite-and-continue when the mapped delta
differs from the stored credits, stop otherwise or when the epoch is
absent from the map. -/
def creditsLoop (lookup : Nat → Option Nat) (idx len : Nat) :
    Nat → Nat → List ValidatorHistoryEntry → List ValidatorHistoryEntry
  | _, 0, arr => arr
  | i, fuel + 1, arr =>
    let position := (idx + len - i) % len
    match arr[position]? with
    | none => arr
    | some entry =>
      match lookup entry.epoch with
      | some credits =>
        if credits = entry.epoch_credits then arr
        else creditsLoop lookup idx len (i + 1) fuel
          (arr.set position { entry with epoch_credits := credits })
      | none => arr

/-- `ValidatorHistory::set_epoch_credits`; `none` models the panic of the
`unwrap` on a negative delta. -/
def ValidatorHistory.set_epoch_credits (s : ValidatorHistory)
    (epoch_credits : List (Nat × Nat × Nat)) :
    Option (ValidatorHistory × UpdateResult) :=
  if epoch_credits.isEmpty then some (s, .ok)
  else
    match creditsMap epoch_credits with
    | none => none
    | some pairs =>
      let len := s.history.arr.length
      some ({ s with history := { s.history with
        arr := creditsLoop (mapGet pairs) s.history.idx len 0 len s.history.arr } }, .ok)

/-- `ValidatorHistory::set_commission_and_slot`. -/
def ValidatorHistory.set_commission_and_slot (s : ValidatorHistory)
    (epoch commission slot : Nat) : ValidatorHistory × UpdateResult :=
  ({ s with history := (s.history.upsertLast epoch
      (fun entry => { entry with commission := commission,
                                 vote_account_last_update_slot := slot })
      { epoch := epoch, commission := commission,
        vote_account_last_update_slot := slot }) }, .ok)

/-- `ValidatorHistory::set_contact_info`; `none` models the panic of the
out-of-bounds `contact_info.addrs[0]` on an empty address list. -/
def ValidatorHistory.set_contact_info (s : ValidatorHistory) (epoch : Nat)
    (contact_info : ContactInfo) (contact_info_ts : Nat) :
    Option (ValidatorHistory × UpdateResult) :=
  match contact_info.addrs with
  | [] => none
  | addr :: _ =>
    match addr with
    | .v6 _ => some (s, .err .UnsupportedIpFormat)
    | .v4 octets =>
      if contact_info_ts < s.last_ip_timestamp ∨
         contact_info_ts < s.last_version_timestamp then
        some (s, .err .GossipDataTooOld)
      else
        let s1 : ValidatorHistory :=
          { s with last_ip_timestamp := contact_info_ts,
                   last_version_timestamp := contact_info_ts }
        some ({ s1 with history := (s1.history.upsertLast epoch
          (fun entry => { entry with
            ip := octets,
            client_type := contact_info.version.client % 256,
            version := { major := contact_info.version.major % 256,
                         minor := contact_info.version.minor % 256,
                         patch := contact_info.version.patch } })
          { epoch := epoch,
            ip := octets,
            client_type := contact_info.version.client % 256,
            version := { major := contact_info.version.major % 256,
                         minor := contact_info.version.minor % 256,
                         patch := contact_info.version.patch } }) }, .ok)

/-- `ValidatorHistory::set_legacy_contact_info`. -/
def ValidatorHistory.set_legacy_contact_info (s : ValidatorHistory) (epoch : Nat)
    (legacy_contact_info : LegacyContactInfo) (contact_info_ts : Nat) :
    ValidatorHistory × UpdateResult :=
  match legacy_contact_info.gossip_ip with
  | .v6 _ => (s, .err .UnsupportedIpFormat)
  | .v4 octets =>
    if contact_info_ts < s.last_ip_timestamp then
      (s, .err .GossipDataTooOld)
    else
      let s1 : ValidatorHistory := { s with last_ip_timestamp := contact_info_ts }
      ({ s1 with history := (s1.history.upsertLast epoch
        (fun entry => { entry with ip := octets })
        { epoch := epoch, ip := octets }) }, .ok)

/-- `ValidatorHistory::set_version`. -/
def ValidatorHistory.set_version (s : ValidatorHistory) (epoch : Nat)
    (version : Version2) (version_ts : Nat) : ValidatorHistory × UpdateResult :=
  if version_ts < s.last_version_timestamp then
    (s, .err .GossipDataTooOld)
  else
    let s1 : ValidatorHistory := { s with last_version_timestamp := version_ts }
    ({ s1 with history := (s1.history.upsertLast epoch
      (fun entry => { entry with version :=
        { major := version.version.major % 256,
          minor := version.version.minor % 256,
          patch := version.version.patch } })
      { epoch := epoch,
        version := { major := version.version.major % 256,
                     minor := version.version.minor % 256,
                     patch := version.version.patch } }) }, .ok)

/-- `ValidatorHistory::set_legacy_version`. -/
def ValidatorHistory.set_legacy_version (s : ValidatorHistory) (epoch : Nat)
    (legacy_version : LegacyVersion) (version_ts : Nat) : ValidatorHistory × UpdateResult :=
  if version_ts < s.last_version_timestamp then
    (s, .err .GossipDataTooOld)
  else
    let s1 : ValidatorHistory := { s with last_version_timestamp := version_ts }
    ({ s1 with history := (s1.history.upsertLast epoch
      (fun entry => { entry with version :=
        { major := legacy_version.version.major % 256,
          minor := legacy_version.version.minor % 256,
          patch := legacy_version.version.patch } })
      { epoch := epoch,
        version := { major := legacy_version.version.major % 256,
                     minor := legacy_version.version.minor % 256,
                     patch := legacy_version.version.patch } }) }, .ok)

/-- One call to a public setter of the History Store. -/
inductive SetterCall where
  | stake (epoch stake rank : Nat) (is_superminority : Bool)
  | mevCommission (epoch commission : Nat)
  | commissionAndSlot (epoch commission slot : Nat)
  | epochCredits (batch : List (Nat × Nat × Nat))
  | contactInfo (epoch : Nat) (ci : ContactInfo) (ts : Nat)
  | legacyContactInfo (epoch : Nat) (ci : LegacyContactInfo) (ts : Nat)
  | version (epoch : Nat) (v : Version2) (ts : Nat)
  | legacyVersion (epoch : Nat) (v : LegacyVersion) (ts : Nat)

/-- Dispatch one setter call; `none` when the call panics. -/
def applyCall (s : ValidatorHistory) : SetterCall → Option (ValidatorHistory × UpdateResult)
  | .stake epoch stake rank sm => some (s.set_stake epoch stake rank sm)
  | .mevCommission epoch c => some (s.set_mev_commission epoch c)
  | .commissionAndSlot epoch c slot => some (s.set_commission_and_slot epoch c slot)
  | .epochCredits batch => s.set_epoch_credits batch
  | .contactInfo epoch ci ts => s.set_contact_info epoch ci ts
  | .legacyContactInfo epoch ci ts => some (s.set_legacy_contact_info epoch ci ts)
  | .version epoch v ts => some (s.set_version epoch v ts)
  | .legacyVersion epoch v ts => some (s.set_legacy_version epoch v ts)

/-- Run a sequence of setter calls; a panicking call leaves no new
state. -/
def applySeq (s : ValidatorHistory) (cs : List SetterCall) : ValidatorHistory :=
  cs.foldl (fun s c => match applyCall s c with
    | some (s1, _) => s1
    | none => s) s

/-- Repeated `CircBuf::push`. -/
def pushAll (buf : CircBuf) (es : List ValidatorHistoryEntry) : CircBuf :=
  es.foldl CircBuf.push buf

/-- Structural well-formedness: the array has its Rust type's fixed
length 512, and the cursor is in bounds (the invariant of claim C9). -/
def ValidatorHistory.WF (s : ValidatorHistory) : Prop :=
  s.history.arr.length = MAX_ITEMS ∧ s.history.idx < MAX_ITEMS

/-- The states reachable from a freshly initialized store by the public
setters. -/
inductive Reachable : ValidatorHistory → Prop where
  | init : Reachable ValidatorHistory.fresh
  | step {s : ValidatorHistory} (c : SetterCall) {s1 : ValidatorHistory} {r : UpdateResult}
      (hs : Reachable s) (h : applyCall s c = some (s1, r)) : Reachable s1

/-! ## Concrete scenario states used by the claims -/

/-- An entry holding only an epoch and an epoch-credits value (all other
fields sentinel), as recorded by previous credit uploads. -/
def C1entry (epoch credits : Nat) : ValidatorHistoryEntry :=
  { epoch := epoch, epoch_credits := credits }

/-- The buffer of the spec's backfill example: epochs 100, 101, 102 with
stored credits 5, 7, 9; the cursor sits on the epoch-102 slot. -/
def C1buf : CircBuf :=
  { idx := 3, is_empty := 0,
    arr := (ValidatorHistoryEntry.default :: C1entry 100 5 :: C1entry 101 7 ::
            C1entry 102 9 :: List.replicate 508 ValidatorHistoryEntry.default) }

/-- The History Store of the spec's backfill example. -/
def C1state : ValidatorHistory :=
  { last_ip_timestamp := 0, last_version_timestamp := 0, history := C1buf }

/-- The incoming batch of the example: deltas 100 ↦ 5, 101 ↦ 8, 102 ↦ 9. -/
def C1batch : List (Nat × Nat × Nat) := [(100, 5, 0), (101, 8, 0), (102, 9, 0)]

/-- An entry holding only an epoch. -/
def entryAt (epoch : Nat) : ValidatorHistoryEntry := { epoch := epoch }

/-- A store whose watermarks both stand at 100, with an empty buffer. -/
def wmState : ValidatorHistory :=
  { last_ip_timestamp := 100, last_version_timestamp := 100, history := CircBuf.default }

/-- A non-IPv4 contact info (used against the watermark check). -/
def ciV6 : ContactInfo :=
  { addrs := [IpAddr.v6 [0, 0, 0, 0, 0, 0, 0, 1]],
    version := { client := 1, major := 1, minor := 2, patch := 3 } }

/-- A contact info with an empty address list. -/
def ciEmpty : ContactInfo :=
  { addrs := [], version := { client := 1, major := 1, minor := 2, patch := 3 } }

/-- A well-formed IPv4 contact info. -/
def ciV4 : ContactInfo :=
  { addrs := [IpAddr.v4 [127, 0, 0, 1]],
    version := { client := 1, major := 1, minor := 2, patch := 3 } }

/-- The 512 entries with epochs 1..512 pushed after the epoch-0 entry in
the wraparound scenario of claim C6. -/
def c6rest : List ValidatorHistoryEntry := (List.range 512).map (fun k => entryAt (k + 1))

/-- The state after one `set_mev_commission 102 42` call on the backfill
example store (used to witness idempotence). -/
def c7once : ValidatorHistory :=
  (ValidatorHistory.set_mev_commission C1state 102 42).1

end Stakenet

/-! ## Lemmas and claim theorems -/

set_option maxRecDepth 1000000

namespace Stakenet

/-- Writing back the element already stored at a position is the
identity. -/
theorem list_set_self {α : Type} (l : List α) (i : Nat) (h : i < l.length) :
    l.set i l[i] = l := by
  induction l generalizing i with
  | nil => simp
  | cons x xs ih =>
    cases i with
    | zero => simp
    | succ n =>
      simp only [List.set_cons_succ, List.getElem_cons_succ, List.cons.injEq, true_and]
      exact ih n (by simpa using h)

theorem push_arr_length (buf : CircBuf) (e : ValidatorHistoryEntry) :
    (buf.push e).arr.length = buf.arr.length := by
  simp [CircBuf.push]

theorem push_idx_lt (buf : CircBuf) (e : ValidatorHistoryEntry)
    (h : 0 < buf.arr.length) : (buf.push e).idx < buf.arr.length := by
  simp only [CircBuf.push]
  exact Nat.mod_lt _ h

theorem push_last (buf : CircBuf) (e : ValidatorHistoryEntry)
    (h : 0 < buf.arr.length) : (buf.push e).last = some e := by
  simp only [CircBuf.push, CircBuf.last]
  rw [if_neg (by simp)]
  have hlt : (buf.idx + 1) % buf.arr.length < buf.arr.length := Nat.mod_lt _ h
  rw [List.getElem?_set_self', List.getElem?_eq_getElem hlt]
  rfl

theorem setLast_arr_length (buf : CircBuf) (e : ValidatorHistoryEntry) :
    (buf.setLast e).arr.length = buf.arr.length := by
  simp [CircBuf.setLast]

theorem setLast_last (buf : CircBuf) (e : ValidatorHistoryEntry)
    (hne : buf.is_empty ≠ 1) (h : buf.idx < buf.arr.length) :
    (buf.setLast e).last = some e := by
  simp only [CircBuf.setLast, CircBuf.last]
  rw [if_neg hne]
  rw [List.getElem?_set_self', List.getElem?_eq_getElem h]
  rfl

theorem upsertLast_arr_length (buf : CircBuf) (epoch : Nat)
    (f : ValidatorHistoryEntry → ValidatorHistoryEntry) (fresh : ValidatorHistoryEntry) :
    (buf.upsertLast epoch f fresh).arr.length = buf.arr.length := by
  unfold CircBuf.upsertLast
  cases buf.last with
  | none => exact push_arr_length _ _
  | some entry =>
    by_cases h : entry.epoch = epoch
    · simp [h, setLast_arr_length]
    · simp [h, push_arr_length]

theorem upsertLast_idx_lt (buf : CircBuf) (epoch : Nat)
    (f : ValidatorHistoryEntry → ValidatorHistoryEntry) (fresh : ValidatorHistoryEntry)
    (hl : 0 < buf.arr.length) (hi : buf.idx < buf.arr.length) :
    (buf.upsertLast epoch f fresh).idx < buf.arr.length := by
  unfold CircBuf.upsertLast
  cases buf.last with
  | none => exact push_idx_lt _ _ hl
  | some entry =>
    by_cases h : entry.epoch = epoch
    · simpa [h, CircBuf.setLast] using hi
    · simpa [h] using push_idx_lt _ _ hl

theorem scanSetFirst_length (epoch : Nat)
    (f : ValidatorHistoryEntry → ValidatorHistoryEntry) :
    ∀ l l', scanSetFirst epoch f l = some l' → l'.length = l.length := by
  intro l
  induction l with
  | nil => intro l' h; exact absurd h (by simp [scanSetFirst])
  | cons x xs ih =>
    intro l' h
    unfold scanSetFirst at h
    by_cases hx : x.epoch = epoch
    · rw [if_pos hx] at h
      cases h
      simp
    · rw [if_neg hx] at h
      cases hs : scanSetFirst epoch f xs with
      | none => rw [hs] at h; cases h
      | some ys =>
        rw [hs] at h
        cases h
        simpa using ih ys hs

theorem creditsLoop_length (lookup : Nat → Option Nat) (idx len : Nat) :
    ∀ fuel i arr, (creditsLoop lookup idx len i fuel arr).length = arr.length := by
  intro fuel
  induction fuel with
  | zero => intro i arr; rfl
  | succ n ih =>
    intro i arr
    rcases hget : arr[(idx + len - i) % len]? with _ | entry
    · simp only [creditsLoop, hget]
    · rcases hlk : lookup entry.epoch with _ | credits
      · simp only [creditsLoop, hget, hlk]
      · by_cases hc : credits = entry.epoch_credits
        · simp only [creditsLoop, hget, hlk, if_pos hc]
        · simp only [creditsLoop, hget, hlk, if_neg hc, ih, List.length_set]

/-- Every setter call preserves structural well-formedness: the array
keeps its fixed length and the cursor stays in bounds. -/
theorem WF_applyCall {s : ValidatorHistory} (hWF : s.WF) (c : SetterCall)
    {s1 : ValidatorHistory} {r : UpdateResult}
    (h : applyCall s c = some (s1, r)) : s1.WF := by
  obtain ⟨hlen, hidx⟩ := hWF
  have hpos : 0 < s.history.arr.length := by rw [hlen]; decide
  have hidx' : s.history.idx < s.history.arr.length := by rw [hlen]; exact hidx
  have hupsert : ∀ epoch f fresh, (CircBuf.upsertLast s.history epoch f fresh).arr.length =
      MAX_ITEMS ∧ (CircBuf.upsertLast s.history epoch f fresh).idx < MAX_ITEMS := by
    intro epoch f fresh
    have h1 := upsertLast_arr_length s.history epoch f fresh
    have h2 := upsertLast_idx_lt s.history epoch f fresh hpos hidx'
    exact ⟨h1.trans hlen, by rw [← hlen]; exact h2⟩
  have hpush : ∀ e, (s.history.push e).arr.length = MAX_ITEMS ∧
      (s.history.push e).idx < MAX_ITEMS := by
    intro e
    have h1 := push_arr_length s.history e
    have h2 := push_idx_lt s.history e hpos
    exact ⟨h1.trans hlen, by rw [← hlen]; exact h2⟩
  cases c with
  | mevCommission epoch commission =>
    simp only [applyCall, ValidatorHistory.set_mev_commission] at h
    cases h
    exact hupsert _ _ _
  | commissionAndSlot epoch commission slot =>
    simp only [applyCall, ValidatorHistory.set_commission_and_slot] at h
    cases h
    exact hupsert _ _ _
  | stake epoch stake rank sm =>
    simp only [applyCall, ValidatorHistory.set_stake] at h
    cases hl : s.history.last with
    | some entry =>
      rw [hl] at h
      by_cases he : entry.epoch = epoch
      · simp only [if_pos he] at h
        cases h
        exact ⟨(setLast_arr_length _ _).trans hlen, hidx⟩
      · by_cases hlt : epoch < entry.epoch
        · simp only [if_neg he, if_pos hlt] at h
          cases hscan : scanSetFirst epoch (stakeFields stake rank sm) s.history.arr with
          | some arr =>
            rw [hscan] at h
            cases h
            exact ⟨(scanSetFirst_length _ _ _ _ hscan).trans hlen, hidx⟩
          | none =>
            rw [hscan] at h
            cases h
            exact ⟨hlen, hidx⟩
        · simp only [if_neg he, if_neg hlt] at h
          cases h
          exact hpush _
    | none =>
      rw [hl] at h
      cases h
      exact hpush _
  | epochCredits batch =>
    simp only [applyCall, ValidatorHistory.set_epoch_credits] at h
    by_cases hb : batch.isEmpty
    · rw [if_pos hb] at h
      cases h
      exact ⟨hlen, hidx⟩
    · rw [if_neg hb] at h
      cases hm : creditsMap batch with
      | none => rw [hm] at h; cases h
      | some pairs =>
        rw [hm] at h
        cases h
        exact ⟨(creditsLoop_length _ _ _ _ _ _).trans hlen, hidx⟩
  | contactInfo epoch ci ts =>
    simp only [applyCall, ValidatorHistory.set_contact_info] at h
    cases ha : ci.addrs with
    | nil => rw [ha] at h; cases h
    | cons a rest =>
      rw [ha] at h
      cases a with
      | v6 segs =>
        cases h
        exact ⟨hlen, hidx⟩
      | v4 octets =>
        by_cases hts : ts < s.last_ip_timestamp ∨ ts < s.last_version_timestamp
        · simp only [if_pos hts] at h
          cases h
          exact ⟨hlen, hidx⟩
        · simp only [if_neg hts] at h
          cases h
          exact hupsert _ _ _
  | legacyContactInfo epoch ci ts =>
    simp only [applyCall, ValidatorHistory.set_legacy_contact_info] at h
    cases hip : ci.gossip_ip with
    | v6 segs =>
      rw [hip] at h
      cases h
      exact ⟨hlen, hidx⟩
    | v4 octets =>
      rw [hip] at h
      by_cases hts : ts < s.last_ip_timestamp
      · simp only [if_pos hts] at h
        cases h
        exact ⟨hlen, hidx⟩
      · simp only [if_neg hts] at h
        cases h
        exact hupsert _ _ _
  | version epoch v ts =>
    simp only [applyCall, ValidatorHistory.set_version] at h
    by_cases hts : ts < s.last_version_timestamp
    · rw [if_pos hts] at h
      cases h
      exact ⟨hlen, hidx⟩
    · rw [if_neg hts] at h
      cases h
      exact hupsert _ _ _
  | legacyVersion epoch v ts =>
    simp only [applyCall, ValidatorHistory.set_legacy_version] at h
    by_cases hts : ts < s.last_version_timestamp
    · rw [if_pos hts] at h
      cases h
      exact ⟨hlen, hidx⟩
    · rw [if_neg hts] at h
      cases h
      exact hupsert _ _ _

/-! ## Claim C9: the cursor invariant -/

/-- C9: for every state reachable from a freshly initialized History
Store by any sequence of the public setters, the cursor `idx` is
strictly less than 512 and the array keeps its fixed length 512, so the
array accesses of `push`, `last`, `last_mut` and the backfill walk are
in bounds. -/
theorem C9_reachable_cursor_in_bounds (s : ValidatorHistory) (h : Reachable s) :
    s.history.idx < MAX_ITEMS ∧ s.history.arr.length = MAX_ITEMS := by
  induction h with
  | init =>
    constructor
    · decide
    · simp [ValidatorHistory.fresh, CircBuf.default]
  | step c hs hcall ih =>
    have := WF_applyCall ⟨ih.2, ih.1⟩ c hcall
    exact ⟨this.2, this.1⟩

/-- Witness for C9 at the initial state. -/
theorem C9_witness :
    ValidatorHistory.fresh.history.idx < MAX_ITEMS ∧
    ValidatorHistory.fresh.history.arr.length = MAX_ITEMS :=
  C9_reachable_cursor_in_bounds ValidatorHistory.fresh Reachable.init

/-! ## Claim C1: the backfill early-stop example -/

/-- C1 counterexample: in the spec's own example (stored credits
100 ↦ 5, 101 ↦ 7, 102 ↦ 9 with the cursor on epoch 102, incoming deltas
100 ↦ 5, 101 ↦ 8, 102 ↦ 9) the slot of epoch 101 still stores 7 after
the call — it is NOT overwritten to 8 as the claim states, because the
walk stops at the very first visited slot (epoch 102, delta equal to the
stored value). -/
theorem C1_counterexample :
    (ValidatorHistory.set_epoch_credits C1state C1batch).map
      (fun p => (p.1.history.arr[2]?).map (fun e => e.epoch_credits)) = some (some 7) ∧
    (ValidatorHistory.set_epoch_credits C1state C1batch).map
      (fun p => (p.1.history.arr[2]?).map (fun e => e.epoch_credits)) ≠ some (some 8) := by
  constructor
  · rfl
  · intro hcontra
    have h7 : (ValidatorHistory.set_epoch_credits C1state C1batch).map
      (fun p => (p.1.history.arr[2]?).map (fun e => e.epoch_credits)) = some (some 7) := rfl
    rw [h7] at hcontra
    cases hcontra

/-- C1 amended: with stored credits {100: 5, 101: 7, 102: 9} (cursor on
epoch 102) and incoming deltas {100: 5, 101: 8, 102: 9}, the call leaves
the store completely unchanged: the backward walk stops at the first
visited slot (the cursor, epoch 102) because its delta matches the
stored credits, so epoch 101 is never visited.  The general stop rule of
the claim (stop at the first visited slot whose delta matches or whose
epoch is absent) is what the code implements. -/
theorem C1_amended_backfill_stops_at_cursor :
    (C1state.history.arr[1]?).map (fun e => (e.epoch, e.epoch_credits)) = some (100, 5) ∧
    (C1state.history.arr[2]?).map (fun e => (e.epoch, e.epoch_credits)) = some (101, 7) ∧
    (C1state.history.arr[3]?).map (fun e => (e.epoch, e.epoch_credits)) = some (102, 9) ∧
    C1state.history.idx = 3 ∧
    ValidatorHistory.set_epoch_credits C1state C1batch = some (C1state, .ok) :=
  ⟨rfl, rfl, rfl, rfl, rfl⟩

/-! ## Claim C2: negative delta -/

/-- C2: a batch containing a triple whose current cumulative credits are
below the previous ones (here `(100, 5, 10)`) makes `set_epoch_credits`
panic (the `unwrap` of the `checked_sub` failure inside the map closure),
modelled as `none`: the typed failure `InvalidEpochCredits` that the code
constructs is never returned to the caller, for any starting state. -/
theorem C2_negative_delta_panics (s : ValidatorHistory) :
    ValidatorHistory.set_epoch_credits s [(100, 5, 10)] = none := rfl

/-! ## Claim C8: contact info with an empty address list -/

/-- C8: `set_contact_info` reads `contact_info.addrs[0]` before any
validation, so with an empty address list the call panics (modelled
`none`) instead of returning the unsupported-format failure; with a
non-empty address list the call always returns a result. -/
theorem C8_contact_info_reads_first_addr (s : ValidatorHistory) (epoch : Nat)
    (ci : ContactInfo) (ts : Nat) :
    (ci.addrs = [] → s.set_contact_info epoch ci ts = none) ∧
    (ci.addrs ≠ [] → ∃ out, s.set_contact_info epoch ci ts = some out) := by
  constructor
  · intro hnil
    unfold ValidatorHistory.set_contact_info
    rw [hnil]
  · intro hne
    obtain ⟨a, rest, ha⟩ := List.exists_cons_of_ne_nil hne
    unfold ValidatorHistory.set_contact_info
    rw [ha]
    cases a with
    | v6 segs => exact ⟨_, rfl⟩
    | v4 octets =>
      by_cases hts : ts < s.last_ip_timestamp ∨ ts < s.last_version_timestamp
      · simp only [if_pos hts]
        exact ⟨_, rfl⟩
      · simp only [if_neg hts]
        exact ⟨_, rfl⟩

/-- Witness for C8: the empty-address panic at a concrete input. -/
theorem C8_witness :
    ciEmpty.addrs = [] ∧
    ValidatorHistory.set_contact_info ValidatorHistory.fresh 5 ciEmpty 10 = none :=
  ⟨rfl, (C8_contact_info_reads_first_addr ValidatorHistory.fresh 5 ciEmpty 10).1 rfl⟩

/-! ## Claim C3: typed failures never mutate -/

/-- C3: whenever a setter call returns a typed failure, the entire
History Store state (buffer, cursor, empty flag and both watermarks) is
exactly what it was before the call. -/
theorem C3_failure_leaves_state_unchanged (s : ValidatorHistory) (c : SetterCall)
    (s1 : ValidatorHistory) (e : ValidatorHistoryError)
    (h : applyCall s c = some (s1, .err e)) : s1 = s := by
  cases c with
  | mevCommission epoch commission =>
    simp only [applyCall, ValidatorHistory.set_mev_commission] at h
    cases h
  | commissionAndSlot epoch commission slot =>
    simp only [applyCall, ValidatorHistory.set_commission_and_slot] at h
    cases h
  | stake epoch stake rank sm =>
    simp only [applyCall, ValidatorHistory.set_stake] at h
    cases hl : s.history.last with
    | some entry =>
      rw [hl] at h
      by_cases he : entry.epoch = epoch
      · simp only [if_pos he] at h
        cases h
      · by_cases hlt : epoch < entry.epoch
        · simp only [if_neg he, if_pos hlt] at h
          cases hscan : scanSetFirst epoch (stakeFields stake rank sm) s.history.arr with
          | some arr =>
            rw [hscan] at h
            cases h
          | none =>
            rw [hscan] at h
            cases h
            rfl
        · simp only [if_neg he, if_neg hlt] at h
          cases h
    | none =>
      rw [hl] at h
      cases h
  | epochCredits batch =>
    simp only [applyCall, ValidatorHistory.set_epoch_credits] at h
    by_cases hb : batch.isEmpty
    · rw [if_pos hb] at h
      cases h
    · rw [if_neg hb] at h
      cases hm : creditsMap batch with
      | none => rw [hm] at h; cases h
      | some pairs => rw [hm] at h; cases h
  | contactInfo epoch ci ts =>
    simp only [applyCall, ValidatorHistory.set_contact_info] at h
    cases ha : ci.addrs with
    | nil => rw [ha] at h; cases h
    | cons a rest =>
      rw [ha] at h
      cases a with
      | v6 segs =>
        cases h
        rfl
      | v4 octets =>
        by_cases hts : ts < s.last_ip_timestamp ∨ ts < s.last_version_timestamp
        · simp only [if_pos hts] at h
          cases h
          rfl
        · simp only [if_neg hts] at h
          cases h
  | legacyContactInfo epoch ci ts =>
    simp only [applyCall, ValidatorHistory.set_legacy_contact_info] at h
    cases hip : ci.gossip_ip with
    | v6 segs =>
      rw [hip] at h
      cases h
      rfl
    | v4 octets =>
      rw [hip] at h
      by_cases hts : ts < s.last_ip_timestamp
      · simp only [if_pos hts] at h
        cases h
        rfl
      · simp only [if_neg hts] at h
        cases h
  | version epoch v ts =>
    simp only [applyCall, ValidatorHistory.set_version] at h
    by_cases hts : ts < s.last_version_timestamp
    · rw [if_pos hts] at h
      cases h
      rfl
    · rw [if_neg hts] at h
      cases h
  | legacyVersion epoch v ts =>
    simp only [applyCall, ValidatorHistory.set_legacy_version] at h
    by_cases hts : ts < s.last_version_timestamp
    · rw [if_pos hts] at h
      cases h
      rfl
    · rw [if_neg hts] at h
      cases h

/-- Witness for C3: a stale version update against a store whose version
watermark stands at 100 fails with `GossipDataTooOld` and leaves the
store unchanged. -/
theorem C3_witness :
    applyCall wmState (SetterCall.version 1 ⟨⟨1, 2, 3⟩⟩ 50) =
      some (wmState, .err .GossipDataTooOld) ∧ wmState = wmState :=
  ⟨rfl, C3_failure_leaves_state_unchanged wmState
    (SetterCall.version 1 ⟨⟨1, 2, 3⟩⟩ 50) wmState .GossipDataTooOld rfl⟩

/-! ## Claim C4: out-of-order stake updates -/

theorem scanSetFirst_eq_none (epoch : Nat)
    (f : ValidatorHistoryEntry → ValidatorHistoryEntry) :
    ∀ l, scanSetFirst epoch f l = none ↔ ∀ x ∈ l, x.epoch ≠ epoch := by
  intro l
  induction l with
  | nil => simp [scanSetFirst]
  | cons x xs ih =>
    unfold scanSetFirst
    by_cases hx : x.epoch = epoch
    · rw [if_pos hx]
      exact iff_of_false (by simp) (fun hall => hall x (List.mem_cons_self x xs) hx)
    · rw [if_neg hx]
      constructor
      · intro h x' hx'
        cases hs : scanSetFirst epoch f xs with
        | some ys => rw [hs] at h; cases h
        | none =>
          rcases List.mem_cons.mp hx' with rfl | hmem
          · exact hx
          · exact (ih.mp hs) x' hmem
      · intro hall
        have hnone : scanSetFirst epoch f xs = none :=
          ih.mpr (fun x' hm => hall x' (List.mem_cons_of_mem _ hm))
        rw [hnone]
        rfl

theorem scanSetFirst_finds (epoch : Nat)
    (f : ValidatorHistoryEntry → ValidatorHistoryEntry) :
    ∀ l, (∃ x ∈ l, x.epoch = epoch) →
      ∃ i, ∃ hi : i < l.length, (l.get ⟨i, hi⟩).epoch = epoch ∧
        (∀ j, ∀ hj : j < l.length, j < i → (l.get ⟨j, hj⟩).epoch ≠ epoch) ∧
        scanSetFirst epoch f l = some (l.set i (f (l.get ⟨i, hi⟩))) := by
  intro l
  induction l with
  | nil => rintro ⟨x, hx, -⟩; cases hx
  | cons x xs ih =>
    intro hmem
    by_cases hx : x.epoch = epoch
    · refine ⟨0, by simp, hx, ?_, ?_⟩
      · intro j hj hj0
        exact absurd hj0 (Nat.not_lt_zero j)
      · unfold scanSetFirst
        rw [if_pos hx]
        rfl
    · obtain ⟨y, hy, hye⟩ := hmem
      rcases List.mem_cons.mp hy with rfl | hymem
      · exact absurd hye hx
      · obtain ⟨i, hi, hep, hmin, heq⟩ := ih ⟨y, hymem, hye⟩
        refine ⟨i + 1, Nat.succ_lt_succ hi, hep, ?_, ?_⟩
        · intro j hj hji
          cases j with
          | zero => exact hx
          | succ j' => exact hmin j' (Nat.lt_of_succ_lt_succ hj) (Nat.lt_of_succ_lt_succ hji)
        · unfold scanSetFirst
          rw [if_neg hx, heq]
          rfl

/-- C4: behaviour of `set_stake` in the out-of-order cases.  When the
buffer is non-empty with last entry `entry`: if `epoch < entry.epoch`
the whole array is scanned — if no slot carries the target epoch, the
call fails with `EpochOutOfRange` and the state is unchanged, and if
some slot does, the first such slot gets its `stake_amount`, `rank` and
`is_superminority` fields set and the call succeeds; if
`entry.epoch < epoch`, a new all-sentinel entry carrying the epoch and
the three stake fields is pushed. -/
theorem C4_set_stake_out_of_order (s : ValidatorHistory) (epoch stake rank : Nat)
    (sm : Bool) (entry : ValidatorHistoryEntry)
    (hlast : s.history.last = some entry) :
    ((epoch < entry.epoch) →
      ((∀ x ∈ s.history.arr, x.epoch ≠ epoch) →
         s.set_stake epoch stake rank sm = (s, .err .EpochOutOfRange)) ∧
      ((∃ x ∈ s.history.arr, x.epoch = epoch) →
         ∃ i, ∃ hi : i < s.history.arr.length,
           (s.history.arr.get ⟨i, hi⟩).epoch = epoch ∧
           (∀ j, ∀ hj : j < s.history.arr.length, j < i →
              (s.history.arr.get ⟨j, hj⟩).epoch ≠ epoch) ∧
           s.set_stake epoch stake rank sm =
             ({ s with history := ({ s.history with
                 arr := (s.history.arr.set i
                   (stakeFields stake rank sm (s.history.arr.get ⟨i, hi⟩))) }) }, .ok))) ∧
    ((entry.epoch < epoch) →
      s.set_stake epoch stake rank sm =
        ({ s with history := (s.history.push
            (stakeFields stake rank sm { epoch := epoch })) }, .ok)) := by
  constructor
  · intro hgt
    have hne : entry.epoch ≠ epoch := (Nat.ne_of_lt hgt).symm
    constructor
    · intro hall
      have hnone : scanSetFirst epoch (stakeFields stake rank sm) s.history.arr = none :=
        (scanSetFirst_eq_none _ _ _).mpr hall
      simp only [ValidatorHistory.set_stake]
      rw [hlast]
      simp only [if_neg hne, if_pos hgt, hnone]
    · intro hmem
      obtain ⟨i, hi, hep, hmin, heq⟩ :=
        scanSetFirst_finds epoch (stakeFields stake rank sm) s.history.arr hmem
      refine ⟨i, hi, hep, hmin, ?_⟩
      simp only [ValidatorHistory.set_stake]
      rw [hlast]
      simp only [if_neg hne, if_pos hgt, heq]
  · intro hlt
    have hne : entry.epoch ≠ epoch := Nat.ne_of_lt hlt
    have hnlt : ¬ epoch < entry.epoch := Nat.not_lt_of_gt hlt
    simp only [ValidatorHistory.set_stake]
    rw [hlast]
    simp only [if_neg hne, if_neg hnlt]

/-- Witness for C4: on the example store (epochs 100, 101, 102 recorded,
last epoch 102), a stake upload for the absent epoch 50 fails with
`EpochOutOfRange` and leaves the store unchanged. -/
theorem C4_witness :
    C1state.history.last = some (C1entry 102 9) ∧ (50 : Nat) < (C1entry 102 9).epoch ∧
    ValidatorHistory.set_stake C1state 50 7 3 false = (C1state, .err .EpochOutOfRange) :=
  ⟨rfl, by decide,
    ((C4_set_stake_out_of_order C1state 50 7 3 false (C1entry 102 9) rfl).1
      (by decide)).1 (by decide)⟩

/-! ## Claim C5: watermark monotonicity and stale rejection -/

/-- One setter call never decreases either watermark. -/
theorem watermark_mono {s : ValidatorHistory} (c : SetterCall)
    {s1 : ValidatorHistory} {r : UpdateResult}
    (h : applyCall s c = some (s1, r)) :
    s.last_ip_timestamp ≤ s1.last_ip_timestamp ∧
    s.last_version_timestamp ≤ s1.last_version_timestamp := by
  cases c with
  | mevCommission epoch commission =>
    simp only [applyCall, ValidatorHistory.set_mev_commission] at h
    cases h
    exact ⟨Nat.le_refl _, Nat.le_refl _⟩
  | commissionAndSlot epoch commission slot =>
    simp only [applyCall, ValidatorHistory.set_commission_and_slot] at h
    cases h
    exact ⟨Nat.le_refl _, Nat.le_refl _⟩
  | stake epoch stake rank sm =>
    simp only [applyCall, ValidatorHistory.set_stake] at h
    cases hl : s.history.last with
    | some entry =>
      rw [hl] at h
      by_cases he : entry.epoch = epoch
      · simp only [if_pos he] at h
        cases h
        exact ⟨Nat.le_refl _, Nat.le_refl _⟩
      · by_cases hlt : epoch < entry.epoch
        · simp only [if_neg he, if_pos hlt] at h
          cases hscan : scanSetFirst epoch (stakeFields stake rank sm) s.history.arr with
          | some arr =>
            rw [hscan] at h
            cases h
            exact ⟨Nat.le_refl _, Nat.le_refl _⟩
          | none =>
            rw [hscan] at h
            cases h
            exact ⟨Nat.le_refl _, Nat.le_refl _⟩
        · simp only [if_neg he, if_neg hlt] at h
          cases h
          exact ⟨Nat.le_refl _, Nat.le_refl _⟩
    | none =>
      rw [hl] at h
      cases h
      exact ⟨Nat.le_refl _, Nat.le_refl _⟩
  | epochCredits batch =>
    simp only [applyCall, ValidatorHistory.set_epoch_credits] at h
    by_cases hb : batch.isEmpty
    · rw [if_pos hb] at h
      cases h
      exact ⟨Nat.le_refl _, Nat.le_refl _⟩
    · rw [if_neg hb] at h
      cases hm : creditsMap batch with
      | none => rw [hm] at h; cases h
      | some pairs =>
        rw [hm] at h
        cases h
        exact ⟨Nat.le_refl _, Nat.le_refl _⟩
  | contactInfo epoch ci ts =>
    simp only [applyCall, ValidatorHistory.set_contact_info] at h
    cases ha : ci.addrs with
    | nil => rw [ha] at h; cases h
    | cons a rest =>
      rw [ha] at h
      cases a with
      | v6 segs =>
        cases h
        exact ⟨Nat.le_refl _, Nat.le_refl _⟩
      | v4 octets =>
        by_cases hts : ts < s.last_ip_timestamp ∨ ts < s.last_version_timestamp
        · simp only [if_pos hts] at h
          cases h
          exact ⟨Nat.le_refl _, Nat.le_refl _⟩
        · simp only [if_neg hts] at h
          cases h
          rcases not_or.mp hts with ⟨h1, h2⟩
          exact ⟨Nat.le_of_not_lt h1, Nat.le_of_not_lt h2⟩
  | legacyContactInfo epoch ci ts =>
    simp only [applyCall, ValidatorHistory.set_legacy_contact_info] at h
    cases hip : ci.gossip_ip with
    | v6 segs =>
      rw [hip] at h
      cases h
      exact ⟨Nat.le_refl _, Nat.le_refl _⟩
    | v4 octets =>
      rw [hip] at h
      by_cases hts : ts < s.last_ip_timestamp
      · simp only [if_pos hts] at h
        cases h
        exact ⟨Nat.le_refl _, Nat.le_refl _⟩
      · simp only [if_neg hts] at h
        cases h
        exact ⟨Nat.le_of_not_lt hts, Nat.le_refl _⟩
  | version epoch v ts =>
    simp only [applyCall, ValidatorHistory.set_version] at h
    by_cases hts : ts < s.last_version_timestamp
    · rw [if_pos hts] at h
      cases h
      exact ⟨Nat.le_refl _, Nat.le_refl _⟩
    · rw [if_neg hts] at h
      cases h
      exact ⟨Nat.le_refl _, Nat.le_of_not_lt hts⟩
  | legacyVersion epoch v ts =>
    simp only [applyCall, ValidatorHistory.set_legacy_version] at h
    by_cases hts : ts < s.last_version_timestamp
    · rw [if_pos hts] at h
      cases h
      exact ⟨Nat.le_refl _, Nat.le_refl _⟩
    · rw [if_neg hts] at h
      cases h
      exact ⟨Nat.le_refl _, Nat.le_of_not_lt hts⟩

/-- The watermarks never decrease across any sequence of setter calls. -/
theorem watermark_mono_seq (cs : List SetterCall) :
    ∀ s : ValidatorHistory,
      s.last_ip_timestamp ≤ (applySeq s cs).last_ip_timestamp ∧
      s.last_version_timestamp ≤ (applySeq s cs).last_version_timestamp := by
  induction cs with
  | nil => exact fun s => ⟨Nat.le_refl _, Nat.le_refl _⟩
  | cons c cs ih =>
    intro s
    show s.last_ip_timestamp ≤ (applySeq _ cs).last_ip_timestamp ∧
      s.last_version_timestamp ≤ (applySeq _ cs).last_version_timestamp
    cases hc : applyCall s c with
    | none =>
      simp only [applySeq, List.foldl_cons, hc]
      exact ih s
    | some p =>
      obtain ⟨s1, r⟩ := p
      have h1 := watermark_mono c hc
      have h2 := ih s1
      simp only [applySeq, List.foldl_cons, hc] at *
      exact ⟨Nat.le_trans h1.1 h2.1, Nat.le_trans h1.2 h2.2⟩

/-- C5 counterexample: a stale (timestamp 50 against watermarks at 100)
contact-info update whose address is not IPv4 is rejected with
`UnsupportedIpFormat`, not with the stale-update failure
`GossipDataTooOld` the claim promises for every stale timestamped
update: the address-format check runs before the watermark check. -/
theorem C5_counterexample :
    (50 : Nat) < wmState.last_ip_timestamp ∧
    ValidatorHistory.set_contact_info wmState 1 ciV6 50 =
      some (wmState, .err .UnsupportedIpFormat) ∧
    UpdateResult.err .UnsupportedIpFormat ≠ UpdateResult.err .GossipDataTooOld :=
  ⟨by decide, rfl, by decide⟩

/-- C5 amended: both watermarks are non-decreasing under every setter
call and every sequence of setter calls; a stale timestamped update is
always rejected without mutating state, and it is rejected with the
stale-update failure `GossipDataTooOld` whenever it passes the
address-format validation that `set_contact_info` and
`set_legacy_contact_info` run first (a stale non-IPv4 update fails with
`UnsupportedIpFormat` instead); on acceptance `set_contact_info` sets
both watermarks to the supplied timestamp, `set_legacy_contact_info`
only the IP watermark, `set_version`/`set_legacy_version` only the
version watermark. -/
theorem C5_amended_watermark_invariant (s : ValidatorHistory) :
    (∀ c s1 r, applyCall s c = some (s1, r) →
       s.last_ip_timestamp ≤ s1.last_ip_timestamp ∧
       s.last_version_timestamp ≤ s1.last_version_timestamp) ∧
    (∀ cs, s.last_ip_timestamp ≤ (applySeq s cs).last_ip_timestamp ∧
           s.last_version_timestamp ≤ (applySeq s cs).last_version_timestamp) ∧
    (∀ epoch ci ts s1 r, (ts < s.last_ip_timestamp ∨ ts < s.last_version_timestamp) →
       s.set_contact_info epoch ci ts = some (s1, r) →
       s1 = s ∧ ∃ e, r = .err e) ∧
    (∀ epoch ci ts octets rest, ci.addrs = IpAddr.v4 octets :: rest →
       (ts < s.last_ip_timestamp ∨ ts < s.last_version_timestamp) →
       s.set_contact_info epoch ci ts = some (s, .err .GossipDataTooOld)) ∧
    (∀ epoch ci ts octets, ci.gossip_ip = IpAddr.v4 octets →
       ts < s.last_ip_timestamp →
       s.set_legacy_contact_info epoch ci ts = (s, .err .GossipDataTooOld)) ∧
    (∀ epoch v ts, ts < s.last_version_timestamp →
       s.set_version epoch v ts = (s, .err .GossipDataTooOld)) ∧
    (∀ epoch v ts, ts < s.last_version_timestamp →
       s.set_legacy_version epoch v ts = (s, .err .GossipDataTooOld)) ∧
    (∀ epoch ci ts s1, s.set_contact_info epoch ci ts = some (s1, .ok) →
       s1.last_ip_timestamp = ts ∧ s1.last_version_timestamp = ts) ∧
    (∀ epoch ci ts s1, s.set_legacy_contact_info epoch ci ts = (s1, .ok) →
       s1.last_ip_timestamp = ts ∧
       s1.last_version_timestamp = s.last_version_timestamp) ∧
    (∀ epoch v ts s1, s.set_version epoch v ts = (s1, .ok) →
       s1.last_version_timestamp = ts ∧
       s1.last_ip_timestamp = s.last_ip_timestamp) ∧
    (∀ epoch v ts s1, s.set_legacy_version epoch v ts = (s1, .ok) →
       s1.last_version_timestamp = ts ∧
       s1.last_ip_timestamp = s.last_ip_timestamp) := by
  refine ⟨fun c s1 r h => watermark_mono c h, fun cs => watermark_mono_seq cs s,
    ?_, ?_, ?_, ?_, ?_, ?_, ?_, ?_, ?_⟩
  · intro epoch ci ts s1 r hts h
    unfold ValidatorHistory.set_contact_info at h
    cases ha : ci.addrs with
    | nil => rw [ha] at h; cases h
    | cons a rest =>
      rw [ha] at h
      cases a with
      | v6 segs =>
        cases h
        exact ⟨rfl, _, rfl⟩
      | v4 octets =>
        simp only [if_pos hts] at h
        cases h
        exact ⟨rfl, _, rfl⟩
  · intro epoch ci ts octets rest ha hts
    unfold ValidatorHistory.set_contact_info
    rw [ha]
    simp only [if_pos hts]
  · intro epoch ci ts octets hip hts
    unfold ValidatorHistory.set_legacy_contact_info
    rw [hip]
    simp only [if_pos hts]
  · intro epoch v ts hts
    unfold ValidatorHistory.set_version
    rw [if_pos hts]
  · intro epoch v ts hts
    unfold ValidatorHistory.set_legacy_version
    rw [if_pos hts]
  · intro epoch ci ts s1 h
    unfold ValidatorHistory.set_contact_info at h
    cases ha : ci.addrs with
    | nil => rw [ha] at h; cases h
    | cons a rest =>
      rw [ha] at h
      cases a with
      | v6 segs => cases h
      | v4 octets =>
        by_cases hts : ts < s.last_ip_timestamp ∨ ts < s.last_version_timestamp
        · simp only [if_pos hts] at h
          cases h
        · simp only [if_neg hts] at h
          cases h
          exact ⟨rfl, rfl⟩
  · intro epoch ci ts s1 h
    unfold ValidatorHistory.set_legacy_contact_info at h
    cases hip : ci.gossip_ip with
    | v6 segs => rw [hip] at h; cases h
    | v4 octets =>
      rw [hip] at h
      by_cases hts : ts < s.last_ip_timestamp
      · simp only [if_pos hts] at h
        cases h
      · simp only [if_neg hts] at h
        cases h
        exact ⟨rfl, rfl⟩
  · intro epoch v ts s1 h
    unfold ValidatorHistory.set_version at h
    by_cases hts : ts < s.last_version_timestamp
    · rw [if_pos hts] at h
      cases h
    · rw [if_neg hts] at h
      cases h
      exact ⟨rfl, rfl⟩
  · intro epoch v ts s1 h
    unfold ValidatorHistory.set_legacy_version at h
    by_cases hts : ts < s.last_version_timestamp
    · rw [if_pos hts] at h
      cases h
    · rw [if_neg hts] at h
      cases h
      exact ⟨rfl, rfl⟩

/-- Witness for C5 (amended): a stale IPv4 contact-info update against
watermarks at 100 is rejected with the stale failure, via the amended
theorem. -/
theorem C5_witness :
    ciV4.addrs = IpAddr.v4 [127, 0, 0, 1] :: [] ∧
    ((50 : Nat) < wmState.last_ip_timestamp ∨
      (50 : Nat) < wmState.last_version_timestamp) ∧
    ValidatorHistory.set_contact_info wmState 3 ciV4 50 =
      some (wmState, .err .GossipDataTooOld) :=
  ⟨rfl, by decide,
    ((C5_amended_watermark_invariant wmState).2.2.2.1 3 ciV4 50 [127, 0, 0, 1] []
      rfl (by decide))⟩

/-! ## Claims C6 and C10: push positions and wraparound -/

theorem idx_ne_shift {len x d : Nat} (hx : x < len) (h1 : 1 ≤ d) (h2 : d < len) :
    x ≠ (x + d) % len := by
  intro h
  rcases Nat.lt_or_ge (x + d) len with hlt | hge
  · rw [Nat.mod_eq_of_lt hlt] at h
    omega
  · have hsub : (x + d) % len = x + d - len := by
      rw [Nat.mod_eq_sub_mod hge, Nat.mod_eq_of_lt (by omega)]
    rw [hsub] at h
    omega

/-- Full characterization of repeated pushes, as long as at most one lap
is made: after pushing `es` onto `b`, the array keeps its length, the
cursor has advanced by `es.length` modulo the capacity, slot
`(b.idx + 1 + i) % len` holds `es[i]`, and every other slot is
untouched. -/
theorem pushAll_spec (es : List ValidatorHistoryEntry) :
    ∀ b : CircBuf, 0 < b.arr.length → b.idx < b.arr.length →
      es.length ≤ b.arr.length →
      (pushAll b es).arr.length = b.arr.length ∧
      (pushAll b es).idx = (b.idx + es.length) % b.arr.length ∧
      (b.is_empty = 0 → (pushAll b es).is_empty = 0) ∧
      (∀ i, i < es.length →
        (pushAll b es).arr[(b.idx + 1 + i) % b.arr.length]? = es[i]?) ∧
      (∀ j, (∀ i, i < es.length → j ≠ (b.idx + 1 + i) % b.arr.length) →
        (pushAll b es).arr[j]? = b.arr[j]?) := by
  induction es with
  | nil =>
    intro b hpos hidx _
    refine ⟨rfl, ?_, fun h => h, ?_, fun j _ => rfl⟩
    · exact (Nat.mod_eq_of_lt (by simpa using hidx)).symm
    · intro i hi
      exact absurd hi (Nat.not_lt_zero i)
  | cons e es ih =>
    intro b hpos hidx hle
    have hstep : pushAll b (e :: es) = pushAll (b.push e) es := rfl
    have hlen' : (b.push e).arr.length = b.arr.length := push_arr_length b e
    have hpos' : 0 < (b.push e).arr.length := by rw [hlen']; exact hpos
    have hidxeq : (b.push e).idx = (b.idx + 1) % b.arr.length := rfl
    have hidx' : (b.push e).idx < (b.push e).arr.length := by
      rw [hlen']
      exact push_idx_lt b e hpos
    have heslen : es.length + 1 ≤ b.arr.length := by simpa using hle
    have hle' : es.length ≤ (b.push e).arr.length := by rw [hlen']; omega
    obtain ⟨IH1, IH2, IH3, IH4, IH5⟩ := ih (b.push e) hpos' hidx' hle'
    have hgetpush : (b.push e).arr[(b.push e).idx]? = some e := by
      show (b.arr.set ((b.idx + 1) % b.arr.length) e)[(b.idx + 1) % b.arr.length]? = some e
      rw [List.getElem?_set_self', List.getElem?_eq_getElem (Nat.mod_lt _ hpos)]
      rfl
    have hshift : ∀ k, ((b.push e).idx + 1 + k) % (b.push e).arr.length =
        (b.idx + 1 + (k + 1)) % b.arr.length := by
      intro k
      rw [hlen', hidxeq]
      have h1 : (b.idx + 1) % b.arr.length + 1 + k = (b.idx + 1) % b.arr.length + (1 + k) := by
        omega
      rw [h1, Nat.mod_add_mod]
      have h2 : b.idx + 1 + (1 + k) = b.idx + 1 + (k + 1) := by omega
      rw [h2]
    refine ⟨?_, ?_, ?_, ?_, ?_⟩
    · rw [hstep, IH1, hlen']
    · rw [hstep, IH2, hlen', hidxeq, Nat.mod_add_mod]
      have h3 : b.idx + 1 + es.length = b.idx + (e :: es).length := by
        simp
        omega
      rw [h3]
    · intro _
      rw [hstep]
      exact IH3 rfl
    · intro i hi
      rw [hstep]
      cases i with
      | zero =>
        have hcursor : ∀ i', i' < es.length →
            (b.push e).idx ≠ ((b.push e).idx + 1 + i') % (b.push e).arr.length := by
          intro i' hi'
          have h4 : (b.push e).idx + 1 + i' = (b.push e).idx + (1 + i') := by omega
          rw [h4]
          refine idx_ne_shift hidx' (by omega) ?_
          rw [hlen']
          omega
        have h5 := IH5 (b.push e).idx hcursor
        have h6 : (b.idx + 1 + 0) % b.arr.length = (b.push e).idx := by
          rw [hidxeq]
        rw [h6, h5, hgetpush]
        simp
      | succ i' =>
        have hi'' : i' < es.length := by simpa using hi
        have h7 := IH4 i' hi''
        rw [hshift i'] at h7
        rw [h7]
        simp
    · intro j hj
      rw [hstep]
      have hj' : ∀ i', i' < es.length →
          j ≠ ((b.push e).idx + 1 + i') % (b.push e).arr.length := by
        intro i' hi'
        rw [hshift i']
        exact hj (i' + 1) (by simpa using Nat.succ_lt_succ hi')
      rw [IH5 j hj']
      have hj0 : j ≠ (b.push e).idx := by
        have := hj 0 (by simp)
        rw [hidxeq]
        simpa using this
      show (b.arr.set ((b.idx + 1) % b.arr.length) e)[j]? = b.arr[j]?
      rw [List.getElem?_set_ne]
      intro hcontra
      exact hj0 (by rw [hidxeq, hcontra])

/-- C6: pushing 513 entries into the empty buffer of capacity 512 leaves
it non-empty, `last()` returns the 513th pushed entry, and the first
pushed entry no longer occupies any slot (its epoch is not findable by
scanning the array, given that it differs from every later epoch). -/
theorem C6_ring_wraparound (e0 : ValidatorHistoryEntry) (rest : List ValidatorHistoryEntry)
    (hlen : rest.length = MAX_ITEMS)
    (hdist : ∀ x ∈ rest, x.epoch ≠ e0.epoch) :
    (pushAll CircBuf.default (e0 :: rest)).is_empty = 0 ∧
    (pushAll CircBuf.default (e0 :: rest)).last = rest.getLast? ∧
    (∀ x ∈ (pushAll CircBuf.default (e0 :: rest)).arr, x.epoch ≠ e0.epoch) := by
  have hb0len : CircBuf.default.arr.length = 512 := by
    simp [CircBuf.default, MAX_ITEMS]
  have hstep : pushAll CircBuf.default (e0 :: rest) =
      pushAll (CircBuf.default.push e0) rest := rfl
  have hb1len : (CircBuf.default.push e0).arr.length = 512 := by
    rw [push_arr_length]
    exact hb0len
  have hb1idx : (CircBuf.default.push e0).idx = 1 := by
    show (CircBuf.default.idx + 1) % CircBuf.default.arr.length = 1
    rw [hb0len]
    decide
  have hrest512 : rest.length = 512 := hlen
  obtain ⟨SP1, SP2, SP3, SP4, SP5⟩ := pushAll_spec rest (CircBuf.default.push e0)
    (by rw [hb1len]; decide) (by rw [hb1len, hb1idx]; decide)
    (by rw [hb1len, hrest512])
  refine ⟨?_, ?_, ?_⟩
  · rw [hstep]
    exact SP3 rfl
  · rw [hstep]
    have hidxfinal : (pushAll (CircBuf.default.push e0) rest).idx = 1 := by
      rw [SP2, hb1idx, hb1len, hrest512]
    have hne : (pushAll (CircBuf.default.push e0) rest).is_empty ≠ 1 := by
      rw [SP3 rfl]
      decide
    show CircBuf.last _ = rest.getLast?
    unfold CircBuf.last
    rw [if_neg hne, hidxfinal]
    have h511 := SP4 511 (by rw [hrest512]; decide)
    have hidx2 : ((CircBuf.default.push e0).idx + 1 + 511) %
        (CircBuf.default.push e0).arr.length = 1 := by
      rw [hb1idx, hb1len]
    rw [hidx2] at h511
    rw [h511, List.getLast?_eq_getElem?, hrest512]
  · rw [hstep]
    intro x hx
    obtain ⟨i, hi⟩ := List.mem_iff_getElem?.mp hx
    have hlenfinal : (pushAll (CircBuf.default.push e0) rest).arr.length = 512 := by
      rw [SP1, hb1len]
    have hilt : i < 512 := by
      by_contra hc
      rw [List.getElem?_eq_none (by rw [hlenfinal]; omega)] at hi
      cases hi
    have hi'lt : (i + 510) % 512 < rest.length := by
      rw [hrest512]
      exact Nat.mod_lt _ (by decide)
    have hslot := SP4 ((i + 510) % 512) hi'lt
    have heq : ((CircBuf.default.push e0).idx + 1 + (i + 510) % 512) %
        (CircBuf.default.push e0).arr.length = i := by
      rw [hb1idx, hb1len]
      have ha : 1 + 1 + (i + 510) % 512 = (i + 510) % 512 + 2 := by omega
      rw [ha, Nat.mod_add_mod]
      have hb : i + 510 + 2 = i + 512 := by omega
      rw [hb, Nat.add_mod_right, Nat.mod_eq_of_lt hilt]
    rw [heq, hi] at hslot
    exact hdist x (List.mem_iff_getElem?.mpr ⟨(i + 510) % 512, hslot.symm⟩)

/-- Witness for C6: push the entry of epoch 0 followed by the 512
entries of epochs 1..512; the final `last()` is the 513th entry. -/
theorem C6_witness :
    c6rest.length = MAX_ITEMS ∧
    (∀ x ∈ c6rest, x.epoch ≠ (entryAt 0).epoch) ∧
    (pushAll CircBuf.default (entryAt 0 :: c6rest)).last = c6rest.getLast? :=
  ⟨by simp [c6rest, MAX_ITEMS], by decide,
    (C6_ring_wraparound (entryAt 0) c6rest (by simp [c6rest, MAX_ITEMS]) (by decide)).2.1⟩

/-- C10: starting from a freshly initialized buffer, the first push
stores its entry at array index 1 while slot 0 keeps the all-sentinel
default entry, and slot 0 still holds the default entry after any
number of pushes short of 512 — so full-array iteration (including the
stake setter's linear scan) observes an all-sentinel slot at index 0
during that time. -/
theorem C10_first_push_skips_slot_zero (e : ValidatorHistoryEntry)
    (es : List ValidatorHistoryEntry) (hlt : es.length < MAX_ITEMS) :
    (CircBuf.default.push e).arr[1]? = some e ∧
    (CircBuf.default.push e).arr[0]? = some ValidatorHistoryEntry.default ∧
    (pushAll CircBuf.default es).arr[0]? = some ValidatorHistoryEntry.default := by
  have hb0len : CircBuf.default.arr.length = 512 := by
    simp [CircBuf.default, MAX_ITEMS]
  have hidx1 : (CircBuf.default.idx + 1) % CircBuf.default.arr.length = 1 := by
    rw [hb0len]
    decide
  have hlt' : es.length < 512 := hlt
  refine ⟨?_, ?_, ?_⟩
  · show (CircBuf.default.arr.set ((CircBuf.default.idx + 1) %
        CircBuf.default.arr.length) e)[1]? = some e
    rw [hidx1, List.getElem?_set_self']
    show Function.const _ e <$> (List.replicate MAX_ITEMS ValidatorHistoryEntry.default)[1]? =
      some e
    rw [List.getElem?_replicate]
    rfl
  · show (CircBuf.default.arr.set ((CircBuf.default.idx + 1) %
        CircBuf.default.arr.length) e)[0]? = some ValidatorHistoryEntry.default
    rw [hidx1, List.getElem?_set_ne (by decide)]
    show (List.replicate MAX_ITEMS ValidatorHistoryEntry.default)[0]? = _
    rw [List.getElem?_replicate]
    rfl
  · obtain ⟨-, -, -, -, SP5⟩ := pushAll_spec es CircBuf.default
      (by rw [hb0len]; decide) (by rw [hb0len]; decide) (by rw [hb0len]; omega)
    rw [SP5 0 ?_]
    · show (List.replicate MAX_ITEMS ValidatorHistoryEntry.default)[0]? = _
      rw [List.getElem?_replicate]
      rfl
    · intro i hi
      rw [hb0len]
      have hidx0 : CircBuf.default.idx = 0 := rfl
      rw [hidx0]
      rw [Nat.mod_eq_of_lt (by omega)]
      omega

/-- Witness for C10 with one pushed entry of epoch 5. -/
theorem C10_witness :
    [entryAt 5].length < MAX_ITEMS ∧
    (pushAll CircBuf.default [entryAt 5]).arr[0]? = some ValidatorHistoryEntry.default :=
  ⟨by decide, (C10_first_push_skips_slot_zero (entryAt 5) [entryAt 5] (by decide)).2.2⟩

/-! ## Claim C7: idempotence of the setters -/

theorem last_ne_empty {buf : CircBuf} {e : ValidatorHistoryEntry}
    (h : buf.last = some e) : buf.is_empty ≠ 1 := by
  intro hc
  unfold CircBuf.last at h
  rw [if_pos hc] at h
  cases h

theorem setLast_eq_self (buf : CircBuf) (e : ValidatorHistoryEntry)
    (h : buf.arr.set buf.idx e = buf.arr) : buf.setLast e = buf := by
  unfold CircBuf.setLast
  rw [h]

/-- A pushed fresh entry whose epoch is the target and which `f` fixes
makes a second upsert a no-op. -/
theorem upsert_after_push (buf : CircBuf) (epoch : Nat)
    (f : ValidatorHistoryEntry → ValidatorHistoryEntry) (fresh : ValidatorHistoryEntry)
    (hpos : 0 < buf.arr.length)
    (hfr_epoch : fresh.epoch = epoch)
    (hffr : f fresh = fresh) :
    (buf.push fresh).upsertLast epoch f fresh = buf.push fresh := by
  unfold CircBuf.upsertLast
  rw [push_last buf fresh hpos]
  simp only [hfr_epoch, if_pos rfl, hffr]
  apply setLast_eq_self
  show ((buf.arr.set ((buf.idx + 1) % buf.arr.length) fresh).set
    ((buf.idx + 1) % buf.arr.length) fresh) = _
  rw [List.set_set]
  rfl

/-- The update-in-place-or-append pattern is idempotent whenever the
field update `f` preserves the epoch, is idempotent, and fixes the
fresh entry it would push. -/
theorem upsertLast_idem (buf : CircBuf) (epoch : Nat)
    (f : ValidatorHistoryEntry → ValidatorHistoryEntry) (fresh : ValidatorHistoryEntry)
    (hpos : 0 < buf.arr.length) (hidx : buf.idx < buf.arr.length)
    (hf_epoch : ∀ x, (f x).epoch = x.epoch)
    (hff : ∀ x, f (f x) = f x)
    (hfr_epoch : fresh.epoch = epoch)
    (hffr : f fresh = fresh) :
    (buf.upsertLast epoch f fresh).upsertLast epoch f fresh =
      buf.upsertLast epoch f fresh := by
  rcases hl : buf.last with _ | entry
  · have h1 : buf.upsertLast epoch f fresh = buf.push fresh := by
      unfold CircBuf.upsertLast
      rw [hl]
    rw [h1]
    exact upsert_after_push buf epoch f fresh hpos hfr_epoch hffr
  · by_cases he : entry.epoch = epoch
    · have h1 : buf.upsertLast epoch f fresh = buf.setLast (f entry) := by
        unfold CircBuf.upsertLast
        rw [hl]
        simp only [if_pos he]
      rw [h1]
      have hlast2 : (buf.setLast (f entry)).last = some (f entry) :=
        setLast_last buf (f entry) (last_ne_empty hl) hidx
      unfold CircBuf.upsertLast
      rw [hlast2]
      simp only [hf_epoch, he, if_pos rfl, hff]
      apply setLast_eq_self
      show (buf.arr.set buf.idx (f entry)).set buf.idx (f entry) = _
      rw [List.set_set]
      rfl
    · have h1 : buf.upsertLast epoch f fresh = buf.push fresh := by
        unfold CircBuf.upsertLast
        rw [hl]
        simp only [if_neg he]
      rw [h1]
      exact upsert_after_push buf epoch f fresh hpos hfr_epoch hffr

/-- What a successful scan produces: the first matching position is
rewritten with `f`, everything else is untouched. -/
theorem scanSetFirst_some_spec (epoch : Nat)
    (f : ValidatorHistoryEntry → ValidatorHistoryEntry) :
    ∀ l l', scanSetFirst epoch f l = some l' →
      ∃ i, ∃ hi : i < l.length, (l.get ⟨i, hi⟩).epoch = epoch ∧
        l' = l.set i (f (l.get ⟨i, hi⟩)) := by
  intro l
  induction l with
  | nil => intro l' h; exact absurd h (by simp [scanSetFirst])
  | cons x xs ih =>
    intro l' h
    unfold scanSetFirst at h
    by_cases hx : x.epoch = epoch
    · rw [if_pos hx] at h
      cases h
      exact ⟨0, by simp, hx, rfl⟩
    · rw [if_neg hx] at h
      cases hs : scanSetFirst epoch f xs with
      | none => rw [hs] at h; cases h
      | some ys =>
        rw [hs] at h
        cases h
        obtain ⟨i, hi, hep, hys⟩ := ih ys hs
        exact ⟨i + 1, Nat.succ_lt_succ hi, hep, by rw [hys]; rfl⟩

/-- Rescanning a successfully scanned array is the identity, provided
`f` preserves epochs and is idempotent. -/
theorem scanSetFirst_idem (epoch : Nat)
    (f : ValidatorHistoryEntry → ValidatorHistoryEntry)
    (hf_epoch : ∀ x, (f x).epoch = x.epoch)
    (hff : ∀ x, f (f x) = f x) :
    ∀ l l', scanSetFirst epoch f l = some l' → scanSetFirst epoch f l' = some l' := by
  intro l
  induction l with
  | nil => intro l' h; exact absurd h (by simp [scanSetFirst])
  | cons x xs ih =>
    intro l' h
    unfold scanSetFirst at h
    by_cases hx : x.epoch = epoch
    · rw [if_pos hx] at h
      cases h
      unfold scanSetFirst
      rw [if_pos (by rw [hf_epoch]; exact hx), hff]
    · rw [if_neg hx] at h
      cases hs : scanSetFirst epoch f xs with
      | none => rw [hs] at h; cases h
      | some ys =>
        rw [hs] at h
        cases h
        unfold scanSetFirst
        rw [if_neg hx, ih ys hs]
        rfl

/-- Iterations at `i ≥ 1` of the backfill walk never touch the cursor
slot. -/
theorem creditsLoop_get_idx (lk : Nat → Option Nat) (idx len : Nat) (hidx : idx < len) :
    ∀ fuel i arr, 1 ≤ i → i + fuel ≤ len →
      (creditsLoop lk idx len i fuel arr)[idx]? = arr[idx]? := by
  intro fuel
  induction fuel with
  | zero => intro i arr _ _; rfl
  | succ n ih =>
    intro i arr h1 h2
    have hpos_ne : (idx + len - i) % len ≠ idx := by
      have hd1 : 1 ≤ len - i := by omega
      have hd2 : len - i < len := by omega
      have heq : idx + len - i = idx + (len - i) := by omega
      rw [heq]
      exact (idx_ne_shift hidx hd1 hd2).symm
    rcases hget : arr[(idx + len - i) % len]? with _ | entry
    · simp only [creditsLoop, hget]
    · rcases hlk : lk entry.epoch with _ | credits
      · simp only [creditsLoop, hget, hlk]
      · by_cases hc : credits = entry.epoch_credits
        · simp only [creditsLoop, hget, hlk, if_pos hc]
        · simp only [creditsLoop, hget, hlk, if_neg hc]
          rw [ih (i + 1) _ (by omega) (by omega)]
          exact List.getElem?_set_ne hpos_ne

/-- After a full backfill walk the cursor slot's epoch is either absent
from the mapping or its delta already equals the stored credits. -/
theorem creditsLoop_cursor_stable (lk : Nat → Option Nat) (idx len : Nat)
    (hidx : idx < len) (arr : List ValidatorHistoryEntry) (hlen : arr.length = len) :
    ∃ e, (creditsLoop lk idx len 0 len arr)[idx]? = some e ∧
      (lk e.epoch = none ∨ lk e.epoch = some e.epoch_credits) := by
  obtain ⟨m, rfl⟩ : ∃ m, len = m + 1 := ⟨len - 1, by omega⟩
  have hlt : idx < arr.length := by omega
  have hpos0 : (idx + (m + 1) - 0) % (m + 1) = idx := by
    rw [Nat.sub_zero, Nat.add_mod_right, Nat.mod_eq_of_lt hidx]
  have hget0 : arr[idx]? = some (arr.get ⟨idx, hlt⟩) := List.getElem?_eq_getElem hlt
  rcases hlk : lk (arr.get ⟨idx, hlt⟩).epoch with _ | credits
  · refine ⟨arr.get ⟨idx, hlt⟩, ?_, Or.inl hlk⟩
    simp only [creditsLoop, hpos0, hget0, hlk]
  · by_cases hc : credits = (arr.get ⟨idx, hlt⟩).epoch_credits
    · refine ⟨arr.get ⟨idx, hlt⟩, ?_, Or.inr (hlk.trans (by rw [hc]))⟩
      simp only [creditsLoop, hpos0, hget0, hlk, if_pos hc]
    · refine ⟨{ arr.get ⟨idx, hlt⟩ with epoch_credits := credits }, ?_, Or.inr hlk⟩
      simp only [creditsLoop, hpos0, hget0, hlk, if_neg hc]
      rw [creditsLoop_get_idx lk idx (m + 1) hidx m 1 _ (by omega) (by omega)]
      rw [List.getElem?_set_self', hget0]
      rfl

/-- Running the backfill walk a second time with the same mapping is the
identity: the second walk stops at the cursor immediately. -/
theorem creditsLoop_restart (lk : Nat → Option Nat) (idx len : Nat)
    (hidx : idx < len) (arr : List ValidatorHistoryEntry) (hlen : arr.length = len) :
    creditsLoop lk idx len 0 len (creditsLoop lk idx len 0 len arr) =
      creditsLoop lk idx len 0 len arr := by
  obtain ⟨e, hget, hstop⟩ := creditsLoop_cursor_stable lk idx len hidx arr hlen
  obtain ⟨m, rfl⟩ : ∃ m, len = m + 1 := ⟨len - 1, by omega⟩
  have hpos0 : (idx + (m + 1) - 0) % (m + 1) = idx := by
    rw [Nat.sub_zero, Nat.add_mod_right, Nat.mod_eq_of_lt hidx]
  set A := creditsLoop lk idx (m + 1) 0 (m + 1) arr with hA
  rcases hstop with hnone | hsome
  · simp only [creditsLoop, hpos0, hget, hnone]
  · simp only [creditsLoop, hpos0, hget, hsome]
    rw [if_pos trivial]

theorem last_eq_get {buf : CircBuf} {e : ValidatorHistoryEntry}
    (h : buf.last = some e) : buf.arr[buf.idx]? = some e := by
  unfold CircBuf.last at h
  by_cases hc : buf.is_empty = 1
  · rw [if_pos hc] at h
    cases h
  · rw [if_neg hc] at h
    exact h

/-- The in-place branch of `set_stake`. -/
theorem set_stake_inplace (s : ValidatorHistory) (epoch stake rank : Nat) (sm : Bool)
    (entry : ValidatorHistoryEntry)
    (hl : s.history.last = some entry) (he : entry.epoch = epoch) :
    s.set_stake epoch stake rank sm =
      ({ s with history := (s.history.setLast (stakeFields stake rank sm entry)) }, .ok) := by
  simp only [ValidatorHistory.set_stake]
  rw [hl]
  simp only [if_pos he]

/-- C7: every setter is idempotent — running the same call again from
the state it produced returns the same state and the same result. -/
theorem C7_setters_idempotent (s : ValidatorHistory) (hWF : s.WF) (c : SetterCall)
    (s1 : ValidatorHistory) (r : UpdateResult)
    (h : applyCall s c = some (s1, r)) : applyCall s1 c = some (s1, r) := by
  obtain ⟨hlen, hidxm⟩ := hWF
  have hpos : 0 < s.history.arr.length := by rw [hlen]; decide
  have hidx : s.history.idx < s.history.arr.length := by rw [hlen]; exact hidxm
  cases c with
  | mevCommission epoch commission =>
    simp only [applyCall, ValidatorHistory.set_mev_commission] at h
    cases h
    simp only [applyCall, ValidatorHistory.set_mev_commission]
    rw [upsertLast_idem s.history epoch
      (fun entry => { entry with mev_commission := commission })
      { epoch := epoch, mev_commission := commission }
      hpos hidx (fun x => rfl) (fun x => rfl) rfl rfl]
  | commissionAndSlot epoch commission slot =>
    simp only [applyCall, ValidatorHistory.set_commission_and_slot] at h
    cases h
    simp only [applyCall, ValidatorHistory.set_commission_and_slot]
    rw [upsertLast_idem s.history epoch
      (fun entry => { entry with commission := commission,
                                 vote_account_last_update_slot := slot })
      { epoch := epoch, commission := commission,
        vote_account_last_update_slot := slot }
      hpos hidx (fun x => rfl) (fun x => rfl) rfl rfl]
  | version epoch v ts =>
    simp only [applyCall, ValidatorHistory.set_version] at h
    by_cases hts : ts < s.last_version_timestamp
    · rw [if_pos hts] at h
      cases h
      simp only [applyCall, ValidatorHistory.set_version]
      rw [if_pos hts]
    · rw [if_neg hts] at h
      cases h
      simp only [applyCall, ValidatorHistory.set_version]
      rw [if_neg (Nat.lt_irrefl ts)]
      rw [upsertLast_idem s.history epoch
        (fun entry => { entry with version :=
          { major := v.version.major % 256, minor := v.version.minor % 256,
            patch := v.version.patch } })
        { epoch := epoch,
          version := { major := v.version.major % 256, minor := v.version.minor % 256,
                       patch := v.version.patch } }
        hpos hidx (fun x => rfl) (fun x => rfl) rfl rfl]
  | legacyVersion epoch v ts =>
    simp only [applyCall, ValidatorHistory.set_legacy_version] at h
    by_cases hts : ts < s.last_version_timestamp
    · rw [if_pos hts] at h
      cases h
      simp only [applyCall, ValidatorHistory.set_legacy_version]
      rw [if_pos hts]
    · rw [if_neg hts] at h
      cases h
      simp only [applyCall, ValidatorHistory.set_legacy_version]
      rw [if_neg (Nat.lt_irrefl ts)]
      rw [upsertLast_idem s.history epoch
        (fun entry => { entry with version :=
          { major := v.version.major % 256, minor := v.version.minor % 256,
            patch := v.version.patch } })
        { epoch := epoch,
          version := { major := v.version.major % 256, minor := v.version.minor % 256,
                       patch := v.version.patch } }
        hpos hidx (fun x => rfl) (fun x => rfl) rfl rfl]
  | legacyContactInfo epoch ci ts =>
    simp only [applyCall, ValidatorHistory.set_legacy_contact_info] at h
    cases hip : ci.gossip_ip with
    | v6 segs =>
      rw [hip] at h
      cases h
      simp only [applyCall, ValidatorHistory.set_legacy_contact_info]
      rw [hip]
    | v4 octets =>
      rw [hip] at h
      by_cases hts : ts < s.last_ip_timestamp
      · simp only [if_pos hts] at h
        cases h
        simp only [applyCall, ValidatorHistory.set_legacy_contact_info]
        rw [hip]
        simp only [if_pos hts]
      · simp only [if_neg hts] at h
        cases h
        simp only [applyCall, ValidatorHistory.set_legacy_contact_info]
        rw [hip]
        simp only [if_neg (Nat.lt_irrefl ts)]
        rw [upsertLast_idem s.history epoch
          (fun entry => { entry with ip := octets })
          { epoch := epoch, ip := octets }
          hpos hidx (fun x => rfl) (fun x => rfl) rfl rfl]
  | contactInfo epoch ci ts =>
    simp only [applyCall, ValidatorHistory.set_contact_info] at h
    cases ha : ci.addrs with
    | nil => rw [ha] at h; cases h
    | cons a rest =>
      rw [ha] at h
      cases a with
      | v6 segs =>
        cases h
        simp only [applyCall, ValidatorHistory.set_contact_info]
        rw [ha]
      | v4 octets =>
        by_cases hts : ts < s.last_ip_timestamp ∨ ts < s.last_version_timestamp
        · simp only [if_pos hts] at h
          cases h
          simp only [applyCall, ValidatorHistory.set_contact_info]
          rw [ha]
          simp only [if_pos hts]
        · simp only [if_neg hts] at h
          cases h
          simp only [applyCall, ValidatorHistory.set_contact_info]
          rw [ha]
          simp only [if_neg (not_or.mpr ⟨Nat.lt_irrefl ts, Nat.lt_irrefl ts⟩)]
          rw [upsertLast_idem s.history epoch
            (fun entry => { entry with
              ip := octets,
              client_type := ci.version.client % 256,
              version := { major := ci.version.major % 256,
                           minor := ci.version.minor % 256,
                           patch := ci.version.patch } })
            { epoch := epoch,
              ip := octets,
              client_type := ci.version.client % 256,
              version := { major := ci.version.major % 256,
                           minor := ci.version.minor % 256,
                           patch := ci.version.patch } }
            hpos hidx (fun x => rfl) (fun x => rfl) rfl rfl]
  | stake epoch stake rank sm =>
    simp only [applyCall, ValidatorHistory.set_stake] at h
    cases hl : s.history.last with
    | none =>
      rw [hl] at h
      cases h
      rw [show applyCall _ (SetterCall.stake epoch stake rank sm) =
        some (ValidatorHistory.set_stake _ epoch stake rank sm) from rfl]
      rw [set_stake_inplace _ epoch stake rank sm
        (stakeFields stake rank sm { epoch := epoch })
        (push_last s.history _ hpos) rfl]
      rw [show stakeFields stake rank sm (stakeFields stake rank sm
        ({ epoch := epoch } : ValidatorHistoryEntry)) =
        stakeFields stake rank sm ({ epoch := epoch } : ValidatorHistoryEntry) from rfl]
      rw [setLast_eq_self
        (s.history.push (stakeFields stake rank sm ({ epoch := epoch } : ValidatorHistoryEntry)))
        (stakeFields stake rank sm ({ epoch := epoch } : ValidatorHistoryEntry))
        (List.set_set _ _ s.history.arr ((s.history.idx + 1) % s.history.arr.length))]
    | some entry =>
      rw [hl] at h
      by_cases he : entry.epoch = epoch
      · simp only [if_pos he] at h
        cases h
        rw [show applyCall _ (SetterCall.stake epoch stake rank sm) =
          some (ValidatorHistory.set_stake _ epoch stake rank sm) from rfl]
        rw [set_stake_inplace _ epoch stake rank sm
          (stakeFields stake rank sm entry)
          (setLast_last s.history _ (last_ne_empty hl) hidx) he]
        rw [show stakeFields stake rank sm (stakeFields stake rank sm entry) =
          stakeFields stake rank sm entry from rfl]
        rw [setLast_eq_self
          (s.history.setLast (stakeFields stake rank sm entry))
          (stakeFields stake rank sm entry)
          (List.set_set _ _ s.history.arr s.history.idx)]
      · by_cases hlt : epoch < entry.epoch
        · have hne : entry.epoch ≠ epoch := he
          simp only [if_neg he, if_pos hlt] at h
          cases hscan : scanSetFirst epoch (stakeFields stake rank sm) s.history.arr with
          | none =>
            rw [hscan] at h
            cases h
            simp only [applyCall, ValidatorHistory.set_stake]
            rw [hl]
            simp only [if_neg he, if_pos hlt, hscan]
          | some arr2 =>
            rw [hscan] at h
            cases h
            obtain ⟨i, hi, hiep, harr2⟩ :=
              scanSetFirst_some_spec epoch (stakeFields stake rank sm) s.history.arr arr2 hscan
            have harr_idx : s.history.arr[s.history.idx]? = some entry := last_eq_get hl
            have hine : i ≠ s.history.idx := by
              intro hcontra
              subst hcontra
              rw [List.getElem?_eq_getElem hi] at harr_idx
              cases harr_idx
              exact he hiep
            have harr2_idx : arr2[s.history.idx]? = some entry := by
              rw [harr2, List.getElem?_set_ne hine]
              exact harr_idx
            have hl1 : (CircBuf.mk s.history.idx s.history.is_empty arr2).last = some entry := by
              unfold CircBuf.last
              rw [if_neg (last_ne_empty hl)]
              exact harr2_idx
            simp only [applyCall, ValidatorHistory.set_stake]
            simp only [hl1, if_neg he, if_pos hlt,
              scanSetFirst_idem epoch (stakeFields stake rank sm)
                (fun x => rfl) (fun x => rfl) s.history.arr arr2 hscan]
        · simp only [if_neg he, if_neg hlt] at h
          cases h
          rw [show applyCall _ (SetterCall.stake epoch stake rank sm) =
            some (ValidatorHistory.set_stake _ epoch stake rank sm) from rfl]
          rw [set_stake_inplace _ epoch stake rank sm
            (stakeFields stake rank sm { epoch := epoch })
            (push_last s.history _ hpos) rfl]
          rw [show stakeFields stake rank sm (stakeFields stake rank sm
            ({ epoch := epoch } : ValidatorHistoryEntry)) =
            stakeFields stake rank sm ({ epoch := epoch } : ValidatorHistoryEntry) from rfl]
          rw [setLast_eq_self
            (s.history.push (stakeFields stake rank sm ({ epoch := epoch } : ValidatorHistoryEntry)))
            (stakeFields stake rank sm ({ epoch := epoch } : ValidatorHistoryEntry))
            (List.set_set _ _ s.history.arr ((s.history.idx + 1) % s.history.arr.length))]
  | epochCredits batch =>
    simp only [applyCall, ValidatorHistory.set_epoch_credits] at h
    by_cases hb : batch.isEmpty
    · rw [if_pos hb] at h
      cases h
      simp only [applyCall, ValidatorHistory.set_epoch_credits]
      rw [if_pos hb]
    · rw [if_neg hb] at h
      cases hm : creditsMap batch with
      | none => rw [hm] at h; cases h
      | some pairs =>
        rw [hm] at h
        cases h
        simp only [applyCall, ValidatorHistory.set_epoch_credits]
        rw [if_neg hb, hm]
        have hAlen : (creditsLoop (mapGet pairs) s.history.idx s.history.arr.length 0
            s.history.arr.length s.history.arr).length = s.history.arr.length :=
          creditsLoop_length _ _ _ _ _ _
        simp only [hAlen]
        rw [creditsLoop_restart (mapGet pairs) s.history.idx s.history.arr.length
          hidx s.history.arr rfl]

/-- Witness for C7: repeating `set_mev_commission 102 42` on the example
store returns the same state and result as the first call. -/
theorem C7_witness :
    C1state.WF ∧
    applyCall C1state (SetterCall.mevCommission 102 42) = some (c7once, .ok) ∧
    applyCall c7once (SetterCall.mevCommission 102 42) = some (c7once, .ok) :=
  ⟨by constructor <;> decide, rfl,
    C7_setters_idempotent C1state (by constructor <;> decide)
      (SetterCall.mevCommission 102 42) c7once .ok rfl⟩

end Stakenet
